import Mathlib

/-!
Shallow embedding of the testrail_tc_converter core pipeline
(src/parsers/data_cleaner.py, src/parsers/xml_parser.py,
src/parsers/formatter.py, src/lark/client.py) together with proofs of the
specified properties.

Text is modelled as `List Char` (`Str`).  The regular-expression passes of
`data_cleaner.py` use only patterns of the shape
`prefix ([^x]+) suffix`, whose Python matching semantics (leftmost match,
greedy maximal character-class runs, scan-and-advance on failure) are
reproduced directly by the recursive scanners below.
-/

abbrev Str := List Char

/-- The backtick character, written via its code point. -/
def btick : Char := Char.ofNat 96

/-- Python `str.strip` whitespace test (ASCII whitespace). -/
def pyIsSpace (c : Char) : Bool :=
  c = ' ' || c = '\t' || c = '\n' || c = '\r' || c = Char.ofNat 11 || c = Char.ofNat 12

/-- Python `s.strip()`: remove leading and trailing whitespace. -/
def pyStrip (s : Str) : Str :=
  ((s.dropWhile pyIsSpace).reverse.dropWhile pyIsSpace).reverse

/-- Python `s.replace(pat, "", 1)`: delete the first occurrence of `pat`. -/
def replaceFirst : Str → Str → Str
  | s, pat =>
    if pat.isPrefixOf s then s.drop pat.length
    else
      match s with
      | [] => []
      | c :: cs => c :: replaceFirst cs pat

/-- Parser for the `(\d+)\.(\d+)\.(\d+)` tail of the case-number patterns of
`data_cleaner.py` (greedy digit runs, each group non-empty). -/
def parseNums (r : Str) : Option (Str × Str × Str) :=
  if r.takeWhile Char.isDigit = [] then none
  else
    match r.dropWhile Char.isDigit with
    | '.' :: r2 =>
      if r2.takeWhile Char.isDigit = [] then none
      else
        match r2.dropWhile Char.isDigit with
        | '.' :: r3 =>
          if r3.takeWhile Char.isDigit = [] then none
          else some (r.takeWhile Char.isDigit, r2.takeWhile Char.isDigit,
                     r3.takeWhile Char.isDigit)
        | _ => none
    | _ => none

/-- Anchored match of `TCG-?(\d+)\.(\d+)\.(\d+)` (`_case_number_pattern.match`).
Returns the optional hyphen part and the three digit groups. -/
def tryTCG (s : Str) : Option (Str × Str × Str × Str) :=
  match s with
  | 'T' :: 'C' :: 'G' :: r0 =>
    match r0 with
    | '-' :: r1 =>
      match parseNums r1 with
      | some (g1, g2, g3) => some (['-'], g1, g2, g3)
      | none => none
    | _ =>
      match parseNums r0 with
      | some (g1, g2, g3) => some ([], g1, g2, g3)
      | none => none
  | _ => none

/-- Anchored match of `TCG(\d+)\.(\d+)\.(\d+)` (`_hyphen_fix_pattern.match`). -/
def tryHyphenFix (s : Str) : Option (Str × Str × Str) :=
  match s with
  | 'T' :: 'C' :: 'G' :: r0 => parseNums r0
  | _ => none

/-- `_case_number_pattern.search`: leftmost match of
`TCG-?(\d+)\.(\d+)\.(\d+)`.  Returns `(group 0, g1, g2, g3)`. -/
def searchTCG : Str → Option (Str × Str × Str × Str)
  | [] => none
  | c :: cs =>
    match tryTCG (c :: cs) with
    | some (hyp, g1, g2, g3) =>
      some ('T' :: 'C' :: 'G' :: (hyp ++ (g1 ++ '.' :: (g2 ++ '.' :: g3))), g1, g2, g3)
    | none => searchTCG cs

/-- `TestCaseDataCleaner.fix_missing_hyphen` on a string argument. -/
def fix_missing_hyphen (case_number : Str) : Str :=
  if ("TCG-".toList.isPrefixOf case_number) ∧ (tryTCG case_number).isSome then
    case_number
  else
    match tryHyphenFix case_number with
    | some (g1, g2, g3) => "TCG-".toList ++ (g1 ++ '.' :: (g2 ++ '.' :: g3))
    | none => case_number

/-- `TestCaseDataCleaner.extract_test_case_number_and_title` on a string. -/
def extract_test_case_number_and_title (title : Str) : Str × Str :=
  if pyStrip title = [] then ([], [])
  else
    match searchTCG (pyStrip title) with
    | some (m, _, _, _) =>
      (fix_missing_hyphen m, pyStrip (replaceFirst (pyStrip title) m))
    | none => ([], pyStrip title)

/-- Scanner for `re.sub(r'\[([^\]]+)\]\([^)]+\)', r'\1', s)`
(`_url_link_pattern.sub`), with an explicit fuel argument; one unit of fuel
is spent per consumed character, so fuel `s.length` (see `urlSub`) always
suffices. -/
def urlSubF : Nat → Str → Str
  | 0, s => s
  | _ + 1, [] => []
  | f + 1, '[' :: cs =>
    match cs.dropWhile (fun c => c ≠ ']') with
    | ']' :: '(' :: cs2 =>
      if cs.takeWhile (fun c => c ≠ ']') ≠ [] ∧
          cs2.takeWhile (fun c => c ≠ ')') ≠ [] ∧
          cs2.dropWhile (fun c => c ≠ ')') ≠ [] then
        cs.takeWhile (fun c => c ≠ ']') ++
          urlSubF f ((cs2.dropWhile (fun c => c ≠ ')')).tail)
      else '[' :: urlSubF f cs
    | _ => '[' :: urlSubF f cs
  | f + 1, c :: cs => c :: urlSubF f cs

/-- Python `re.sub(r'\[([^\]]+)\]\([^)]+\)', r'\1', s)`. -/
def urlSub (s : Str) : Str := urlSubF s.length s

/-- Fuelled scanner for `re.sub(r'x([^x]+)x', r'\1', s)` with a single
delimiter character `d` (shape of `_markdown_code_pattern` and
`_markdown_italic_pattern`). -/
def pairSubF (d : Char) : Nat → Str → Str
  | 0, s => s
  | _ + 1, [] => []
  | f + 1, c :: cs =>
    if c = d then
      if cs.takeWhile (fun x => x ≠ d) ≠ [] ∧ cs.dropWhile (fun x => x ≠ d) ≠ [] then
        cs.takeWhile (fun x => x ≠ d) ++ pairSubF d f ((cs.dropWhile (fun x => x ≠ d)).tail)
      else c :: pairSubF d f cs
    else c :: pairSubF d f cs

/-- Python `re.sub(r'\*([^*]+)\*', r'\1', s)` (`_markdown_italic_pattern.sub`). -/
def italicSub (s : Str) : Str := pairSubF '*' s.length s

/-- Python `re.sub` of the inline-code pattern (`_markdown_code_pattern.sub`). -/
def codeSub (s : Str) : Str := pairSubF btick s.length s

/-- Fuelled scanner for `re.sub(r'\*\*([^*]+)\*\*', r'\1', s)`
(`_markdown_bold_pattern.sub`). -/
def boldSubF : Nat → Str → Str
  | 0, s => s
  | _ + 1, [] => []
  | f + 1, '*' :: '*' :: cs =>
    if cs.takeWhile (fun x => x ≠ '*') ≠ [] ∧
        (cs.dropWhile (fun x => x ≠ '*')).take 2 = ['*', '*'] then
      cs.takeWhile (fun x => x ≠ '*') ++
        boldSubF f ((cs.dropWhile (fun x => x ≠ '*')).drop 2)
    else '*' :: boldSubF f ('*' :: cs)
  | f + 1, c :: cs => c :: boldSubF f cs

/-- Python `re.sub(r'\*\*([^*]+)\*\*', r'\1', s)`. -/
def boldSub (s : Str) : Str := boldSubF s.length s

/-- Fuelled scanner for the fenced-code-block pattern
(`_markdown_code_block_pattern.sub`). -/
def codeBlockSubF : Nat → Str → Str
  | 0, s => s
  | _ + 1, [] => []
  | f + 1, b1 :: b2 :: b3 :: cs =>
    if b1 = btick ∧ b2 = btick ∧ b3 = btick then
      if cs.takeWhile (fun x => x ≠ btick) ≠ [] ∧
          (cs.dropWhile (fun x => x ≠ btick)).take 3 = [btick, btick, btick] then
        cs.takeWhile (fun x => x ≠ btick) ++
          codeBlockSubF f ((cs.dropWhile (fun x => x ≠ btick)).drop 3)
      else b1 :: codeBlockSubF f (b2 :: b3 :: cs)
    else b1 :: codeBlockSubF f (b2 :: b3 :: cs)
  | f + 1, c :: cs => c :: codeBlockSubF f cs

/-- Python `re.sub` of the fenced-code-block pattern. -/
def codeBlockSub (s : Str) : Str := codeBlockSubF s.length s

/-- One iteration of the nested-markup loop body of `clean_markdown_content`:
bold stripping followed by italic stripping. -/
def biStep (s : Str) : Str := italicSub (boldSub s)

/-- Fuelled repeat-until-stable nested-markup loop of
`clean_markdown_content`. -/
def biLoopF : Nat → Str → Str
  | 0, s => s
  | f + 1, s => if biStep s = s then s else biLoopF f (biStep s)

/-- The `while previous_content != content` loop of `clean_markdown_content`:
each changing iteration strictly shrinks the text, so fuel `s.length + 1`
always suffices. -/
def biLoop (s : Str) : Str := biLoopF (s.length + 1) s

/-- `TestCaseDataCleaner.extract_url_description` on a string argument. -/
def extract_url_description (url_content : Str) : Str :=
  if url_content = [] then [] else urlSub url_content

/-- `TestCaseDataCleaner.clean_markdown_content` on a string argument. -/
def clean_markdown_content (content : Str) : Str :=
  if content = [] then []
  else
    pyStrip (biLoop (codeSub (codeBlockSub (extract_url_description content))))


/-- Python `s.lower()` (ASCII case mapping). -/
def pyLower (s : Str) : Str := s.map Char.toLower

/-! ## Formatter (`src/parsers/formatter.py`) -/

/-- A cleaned test-case record as consumed by `LarkDataFormatter`: a Python
dict with the six expected string-valued keys, where `none` models an absent
key. -/
structure TestCaseDict where
  test_case_number : Option Str
  title : Option Str
  priority : Option Str
  precondition : Option Str
  steps : Option Str
  expected_result : Option Str
deriving DecidableEq

/-- A formatted Lark record (`format_test_case_for_lark` output). -/
structure LarkRecord where
  test_case_number : Str
  title : Str
  priority : Str
  precondition : Str
  steps : Str
  expected_result : Str
deriving DecidableEq

/-- Python truthiness-and-blankness gate of the critical-field loop of
`validate_required_fields`: fails when the key is absent, the value is the
empty string, or the value is whitespace-only. -/
def critNonBlank : Option Str → Bool
  | none => false
  | some s => !(s.isEmpty || (pyStrip s).isEmpty)

/-- `LarkDataFormatter.validate_required_fields`. -/
def validate_required_fields (tc : TestCaseDict) : Bool :=
  tc.test_case_number.isSome && tc.title.isSome && tc.priority.isSome &&
    tc.precondition.isSome && tc.steps.isSome && tc.expected_result.isSome &&
    critNonBlank tc.test_case_number && critNonBlank tc.title &&
    critNonBlank tc.steps && critNonBlank tc.expected_result

/-- `LarkDataFormatter.format_priority_field`; `none` models a Python `None`
argument (or an absent key). -/
def format_priority_field (priority : Option Str) : Str :=
  match priority with
  | none => "Medium".toList
  | some p =>
    if pyLower (pyStrip p) = [] then "Medium".toList
    else if pyLower (pyStrip p) = "high".toList then "High".toList
    else if pyLower (pyStrip p) = "medium".toList then "Medium".toList
    else if pyLower (pyStrip p) = "low".toList then "Low".toList
    else "Medium".toList

/-- `LarkDataFormatter.format_test_case_for_lark`; the `error` case models the
raised `ValidationError`. -/
def format_test_case_for_lark (tc : TestCaseDict) : Except Str LarkRecord :=
  if validate_required_fields tc then
    .ok { test_case_number := tc.test_case_number.getD []
          title := tc.title.getD []
          precondition := tc.precondition.getD []
          steps := tc.steps.getD []
          expected_result := tc.expected_result.getD []
          priority := format_priority_field tc.priority }
  else .error "缺少必要欄位".toList

/-- `LarkDataFormatter.batch_format_records`: skip records failing validation,
skip records whose formatting raises, keep the rest in order. -/
def batch_format_records : List TestCaseDict → List LarkRecord
  | [] => []
  | tc :: rest =>
    if validate_required_fields tc then
      match format_test_case_for_lark tc with
      | .ok r => r :: batch_format_records rest
      | .error _ => batch_format_records rest
    else batch_format_records rest

/-! ## XML parser (`src/parsers/xml_parser.py`) -/

/-- An XML element: tag, optional text, child elements. -/
inductive Elem where
  | mk (tag : Str) (text : Option Str) (children : List Elem)

def Elem.tag : Elem → Str
  | .mk t _ _ => t

def Elem.text : Elem → Option Str
  | .mk _ x _ => x

def Elem.children : Elem → List Elem
  | .mk _ _ cs => cs

/-- `ElementTree.Element.find`: first direct child with the given tag. -/
def findDirect (e : Elem) (t : Str) : Option Elem :=
  e.children.find? (fun c => c.tag = t)

/-- `TestRailXMLParser._get_element_text`: text of the first direct child with
the given tag, stripped; the default when the child or its text is absent. -/
def getElementText (parent : Elem) (t : Str) (dflt : Str) : Str :=
  match findDirect parent t with
  | some el =>
    match el.text with
    | some tx => pyStrip tx
    | none => dflt
  | none => dflt

/-- All descendants of the listed elements (preorder, document order), as
`findall(".//tag")` enumerates them. -/
def descendantsAux : List Elem → List Elem
  | [] => []
  | Elem.mk t x cs :: es => Elem.mk t x cs :: (descendantsAux cs ++ descendantsAux es)

/-- `TestRailXMLParser._find_all_case_elements`: `root.findall(".//case")`. -/
def findAllCases (root : Elem) : List Elem :=
  (descendantsAux root.children).filter (fun e => e.tag = "case".toList)

/-- The raw per-case projection produced by the extractor. -/
structure RawCase where
  id : Str
  title : Str
  priority : Str
  preconds : Str
  steps : Str
  expected : Str
deriving DecidableEq

/-- `TestRailXMLParser._extract_single_test_case`. -/
def extractSingleTestCase (case_elem : Elem) : Option RawCase :=
  if getElementText case_elem "title".toList [] = [] then none
  else
    some { id := getElementText case_elem "id".toList []
           title := getElementText case_elem "title".toList []
           priority := getElementText case_elem "priority".toList "Medium".toList
           preconds :=
             match findDirect case_elem "custom".toList with
             | some custom => getElementText custom "preconds".toList []
             | none => []
           steps :=
             match findDirect case_elem "custom".toList with
             | some custom => getElementText custom "steps".toList []
             | none => []
           expected :=
             match findDirect case_elem "custom".toList with
             | some custom => getElementText custom "expected".toList []
             | none => [] }

/-- `TestRailXMLParser.extract_test_cases`. -/
def extract_test_cases (root : Elem) : List RawCase :=
  (findAllCases root).filterMap extractSingleTestCase

/-- `TestRailXMLParser.validate_xml_structure` (on a parsed, non-`None`
root). -/
def validate_xml_structure (root : Elem) : Bool :=
  match findDirect root "sections".toList with
  | some _ => true
  | none => !(findAllCases root).isEmpty

/-- The structural-validation-then-extraction core of
`TestRailXMLParser.parse_xml_file` (file access and XML decoding are the
out-of-scope collaborator); the `error` case models the raised
`ValueError`. -/
def parse_xml_doc (root : Elem) : Except Str (List RawCase) :=
  if validate_xml_structure root then .ok (extract_test_cases root)
  else .error "XML 檔案結構不符合 TestRail 格式".toList


/-! ## Lark client (`src/lark/client.py`) -/

/-- Environment response for one chunk of
`LarkRecordManager.batch_create_records`: the token fetch can fail, the HTTP
call can return a non-200 status, the body can carry a non-zero code, the
request can raise, or the call succeeds with a list of created records whose
`record_id` values may be missing or empty (`none` / `some []`). -/
inductive ChunkResp where
  | tokenFail
  | httpFail (text : Str)
  | apiFail (msg : Str)
  | exn (msg : Str)
  | ok (recordIds : List (Option Str))

/-- The id extraction of a successful chunk
(`[record.get('record_id') for record in records if record.get('record_id')]`):
missing and empty (falsy) ids are dropped. -/
def extractIds (rs : List (Option Str)) : List Str :=
  rs.filterMap (fun r =>
    match r with
    | some s => if s.isEmpty then none else some s
    | none => none)

/-- Whether processing a chunk with this response performs an HTTP request
(everything except a token-fetch failure does). -/
def ChunkResp.callsNetwork : ChunkResp → Bool
  | .tokenFail => false
  | _ => true

/-- The error message a failing chunk contributes, if any. -/
def ChunkResp.errMsg : ChunkResp → Option Str
  | .tokenFail => some "無法獲取 Access Token".toList
  | .httpFail t => some ("批次創建失敗，HTTP ".toList ++ t)
  | .apiFail m => some ("批次創建失敗: ".toList ++ m)
  | .exn m => some ("批次創建異常: ".toList ++ m)
  | .ok _ => none

/-- The ids a chunk contributes to `success_ids`. -/
def ChunkResp.okIds : ChunkResp → List Str
  | .ok rs => extractIds rs
  | _ => []

/-- `records_data[i:i + max_batch_size]` chunking with `max_batch_size = 500`. -/
def chunksOf500 : List α → List (List α)
  | [] => []
  | x :: xs => (x :: xs.take 499) :: chunksOf500 (xs.drop 499)
termination_by l => l.length
decreasing_by
  have := List.length_drop 499 xs
  simp only [List.length_cons]
  omega

/-- The per-chunk loop of `LarkRecordManager.batch_create_records`, driven by
the environment `net` (the response for chunk `i`).  Returns
`(success_ids, error_messages, number of HTTP requests)`. -/
def processChunks (net : Nat → ChunkResp) : Nat → List (List α) → List Str × List Str × Nat
  | _, [] => ([], [], 0)
  | i, _chunk :: rest =>
    ((net i).okIds ++ (processChunks net (i + 1) rest).1,
      ((net i).errMsg.toList ++ (processChunks net (i + 1) rest).2.1),
      ((net i).callsNetwork.toNat + (processChunks net (i + 1) rest).2.2))

/-- `LarkRecordManager.batch_create_records`: returns
`(overall_success, success_ids, error_messages)`. -/
def batch_create_records (net : Nat → ChunkResp) (records_data : List α) :
    Bool × List Str × List Str :=
  if records_data.isEmpty then (true, [], [])
  else
    ((processChunks net 0 (chunksOf500 records_data)).2.1.isEmpty,
      (processChunks net 0 (chunksOf500 records_data)).1,
      (processChunks net 0 (chunksOf500 records_data)).2.1)

/-- Number of HTTP requests performed by
`LarkRecordManager.batch_create_records`. -/
def batchNetworkCalls (net : Nat → ChunkResp) (records_data : List α) : Nat :=
  if records_data.isEmpty then 0
  else (processChunks net 0 (chunksOf500 records_data)).2.2

/-! ## Auth manager (`LarkAuthManager`) -/

/-- The token cache of `LarkAuthManager`. -/
structure AuthState where
  tenant_access_token : Option Str
  token_expire_time : Option Int
deriving DecidableEq

/-- Environment response for one credential exchange
(`requests.post` to the auth endpoint). -/
inductive FetchResult where
  | httpFail
  | apiFail
  | exn
  | ok (tok : Str) (expire_seconds : Int)

/-- Python truthiness of the cached-token check in
`get_tenant_access_token` (`self._tenant_access_token and
self._token_expire_time and datetime.now() < self._token_expire_time`). -/
def cachedUsable (st : AuthState) (now : Int) : Bool :=
  match st.tenant_access_token, st.token_expire_time with
  | some tok, some e => !tok.isEmpty && decide (now < e)
  | _, _ => false

/-- Outcome of the credential-exchange attempt of `get_tenant_access_token`:
on success the token is cached with expiry 300 seconds before the declared
lifetime; every failure path returns `None` and leaves the cache untouched. -/
def applyFetch (st : AuthState) (now : Int) : FetchResult → Option Str × AuthState × Bool
  | .ok tok expire_seconds =>
    (some tok,
      { tenant_access_token := some tok,
        token_expire_time := some (now + (expire_seconds - 300)) },
      true)
  | _ => (none, st, true)

/-- `LarkAuthManager.get_tenant_access_token`, with the current time and the
network outcome passed explicitly.  Returns
`(result, new state, whether a credential exchange was performed)`. -/
def get_tenant_access_token (st : AuthState) (now : Int) (force_refresh : Bool)
    (net : FetchResult) : Option Str × AuthState × Bool :=
  if !force_refresh && cachedUsable st now then
    (st.tenant_access_token, st, false)
  else applyFetch st now net

/-- `LarkAuthManager.is_token_valid`. -/
def is_token_valid (st : AuthState) (now : Int) : Bool :=
  st.tenant_access_token.isSome && st.token_expire_time.isSome &&
    (match st.token_expire_time with
     | some e => decide (now < e)
     | none => false)

/-! ## Dynamically typed arguments (`data_cleaner` type handling) -/

/-- A Python value as passed to the cleaner entry points: a string or one of
the non-string values the code guards against. -/
inductive PyVal where
  | pstr (s : Str)
  | pnone
  | pint (n : Int)
  | pbool (b : Bool)
deriving DecidableEq

def PyVal.isStr : PyVal → Bool
  | .pstr _ => true
  | _ => false

/-- `TestCaseDataCleaner.extract_url_description` on an arbitrary argument:
non-strings are returned unchanged (`if not isinstance(url_content, str):
return url_content`). -/
def extract_url_description_dyn (v : PyVal) : PyVal :=
  match v with
  | .pstr s => .pstr (extract_url_description s)
  | other => other

/-- `TestCaseDataCleaner.fix_missing_hyphen` on an arbitrary argument:
non-strings are returned unchanged. -/
def fix_missing_hyphen_dyn (v : PyVal) : PyVal :=
  match v with
  | .pstr s => .pstr (fix_missing_hyphen s)
  | other => other

/-- `TestCaseDataCleaner.clean_markdown_content` on an arbitrary argument:
`None` and other non-strings raise `TypeError` (the `error` case). -/
def clean_markdown_content_dyn (v : PyVal) : Except Str Str :=
  match v with
  | .pstr s => .ok (clean_markdown_content s)
  | .pnone => .error "內容不能為None".toList
  | _ => .error "內容必須是字串".toList

/-- `TestCaseDataCleaner.extract_test_case_number_and_title` on an arbitrary
argument: `None` and other non-strings raise `TypeError`. -/
def extract_test_case_number_and_title_dyn (v : PyVal) : Except Str (Str × Str) :=
  match v with
  | .pstr s => .ok (extract_test_case_number_and_title s)
  | .pnone => .error "標題不能為None".toList
  | _ => .error "標題必須是字串".toList

/-! ## Generic helper lemmas -/

theorem length_filterMap_eq_iff {α β : Type} (f : α → Option β) (l : List α) :
    ((l.filterMap f).length = l.length ↔ ∀ a ∈ l, (f a).isSome) := by
  induction l with
  | nil => simp
  | cons x xs ih =>
    cases hx : f x with
    | none =>
      simp only [List.filterMap_cons, hx, List.length_cons, List.mem_cons]
      constructor
      · intro h
        have := List.length_filterMap_le f xs
        omega
      · intro h
        have := h x (Or.inl rfl)
        simp [hx] at this
    | some b =>
      simp only [List.filterMap_cons, hx, List.length_cons, List.mem_cons]
      constructor
      · intro h
        intro a ha
        rcases ha with rfl | ha
        · simp [hx]
        · exact (ih.mp (by omega)) a ha
      · intro h
        have : (xs.filterMap f).length = xs.length := ih.mpr (fun a ha => h a (Or.inr ha))
        omega

/-! ## Claim C7 -/

/-- Claim C7: `format_priority_field` is total and range-restricted: every
input (string, empty, `None`, unrecognized) yields one of
`High`/`Medium`/`Low`; the input is stripped and lower-cased,
`high`/`medium`/`low` map to their capitalized forms, and every other value
maps to `Medium`. -/
theorem format_priority_spec :
    (∀ p : Option Str,
      format_priority_field p = "High".toList ∨
      format_priority_field p = "Medium".toList ∨
      format_priority_field p = "Low".toList) ∧
    format_priority_field none = "Medium".toList ∧
    (∀ s : Str, pyLower (pyStrip s) = "high".toList →
      format_priority_field (some s) = "High".toList) ∧
    (∀ s : Str, pyLower (pyStrip s) = "medium".toList →
      format_priority_field (some s) = "Medium".toList) ∧
    (∀ s : Str, pyLower (pyStrip s) = "low".toList →
      format_priority_field (some s) = "Low".toList) ∧
    (∀ s : Str, pyLower (pyStrip s) ≠ "high".toList →
      pyLower (pyStrip s) ≠ "medium".toList →
      pyLower (pyStrip s) ≠ "low".toList →
      format_priority_field (some s) = "Medium".toList) := by
  refine ⟨?_, rfl, ?_, ?_, ?_, ?_⟩
  · intro p
    cases p with
    | none => simp [format_priority_field]
    | some s =>
      simp only [format_priority_field]
      split
      · simp
      · split
        · simp
        · split
          · simp
          · split <;> simp
  · intro s h
    simp [format_priority_field, h]
  · intro s h
    rw [format_priority_field, if_neg (by rw [h]; decide), if_neg (by rw [h]; decide),
      if_pos h]
  · intro s h
    rw [format_priority_field, if_neg (by rw [h]; decide), if_neg (by rw [h]; decide),
      if_neg (by rw [h]; decide), if_pos h]
  · intro s h1 h2 h3
    show (if pyLower (pyStrip s) = [] then "Medium".toList
      else if pyLower (pyStrip s) = "high".toList then "High".toList
      else if pyLower (pyStrip s) = "medium".toList then "Medium".toList
      else if pyLower (pyStrip s) = "low".toList then "Low".toList
      else "Medium".toList) = "Medium".toList
    by_cases h0 : pyLower (pyStrip s) = []
    · rw [if_pos h0]
    · rw [if_neg h0, if_neg h1, if_neg h2, if_neg h3]

/-- Witness for C7 at concrete inputs. -/
theorem format_priority_spec_witness :
    format_priority_field (some "  HIGH ".toList) = "High".toList ∧
    format_priority_field (some "urgent".toList) = "Medium".toList ∧
    format_priority_field (some " loW".toList) = "Low".toList :=
  ⟨format_priority_spec.2.2.1 _ (by decide),
   format_priority_spec.2.2.2.2.2 _ (by decide) (by decide) (by decide),
   format_priority_spec.2.2.2.2.1 _ (by decide)⟩

/-! ## Claim C10 -/

/-- Claim C10: non-string arguments (including `None`) pass through
`extract_url_description` and `fix_missing_hyphen` unchanged, while
`clean_markdown_content` and `extract_test_case_number_and_title` raise a
type error on them. -/
theorem type_guard_spec :
    ∀ v : PyVal, v.isStr = false →
      extract_url_description_dyn v = v ∧
      fix_missing_hyphen_dyn v = v ∧
      (clean_markdown_content_dyn v).isOk = false ∧
      (extract_test_case_number_and_title_dyn v).isOk = false := by
  intro v hv
  cases v with
  | pstr s => simp [PyVal.isStr] at hv
  | pnone =>
    exact ⟨rfl, rfl, rfl, rfl⟩
  | pint n =>
    exact ⟨rfl, rfl, rfl, rfl⟩
  | pbool b =>
    exact ⟨rfl, rfl, rfl, rfl⟩

/-- Witness for C10 at `None` and at an integer. -/
theorem type_guard_spec_witness :
    (extract_url_description_dyn PyVal.pnone = PyVal.pnone ∧
      fix_missing_hyphen_dyn PyVal.pnone = PyVal.pnone ∧
      (clean_markdown_content_dyn PyVal.pnone).isOk = false ∧
      (extract_test_case_number_and_title_dyn PyVal.pnone).isOk = false) ∧
    fix_missing_hyphen_dyn (PyVal.pint 3) = PyVal.pint 3 :=
  ⟨type_guard_spec PyVal.pnone (by decide),
   (type_guard_spec (PyVal.pint 3) (by decide)).2.1⟩

/-! ## Claim C4 -/

theorem format_ok_of_valid (tc : TestCaseDict)
    (h : validate_required_fields tc = true) :
    format_test_case_for_lark tc =
      .ok { test_case_number := tc.test_case_number.getD []
            title := tc.title.getD []
            precondition := tc.precondition.getD []
            steps := tc.steps.getD []
            expected_result := tc.expected_result.getD []
            priority := format_priority_field tc.priority } := by
  rw [format_test_case_for_lark, if_pos h]

/-- Claim C4: `batch_format_records` is total and returns, in order, exactly
the formatted versions of the records that pass validation; a batch of three
records whose second lacks `expected_result` yields the formatted first and
third records only. -/
theorem batch_format_records_spec :
    (∀ tcs : List TestCaseDict,
      batch_format_records tcs =
        (tcs.filter validate_required_fields).filterMap
          (fun tc => (format_test_case_for_lark tc).toOption)) ∧
    (∀ r1 r2 r3 : TestCaseDict,
      validate_required_fields r1 = true →
      validate_required_fields r3 = true →
      r2.expected_result = none →
      ∃ o1 o3, format_test_case_for_lark r1 = .ok o1 ∧
        format_test_case_for_lark r3 = .ok o3 ∧
        batch_format_records [r1, r2, r3] = [o1, o3]) := by
  have hmain : ∀ tcs : List TestCaseDict,
      batch_format_records tcs =
        (tcs.filter validate_required_fields).filterMap
          (fun tc => (format_test_case_for_lark tc).toOption) := by
    intro tcs
    induction tcs with
    | nil => rfl
    | cons tc rest ih =>
      cases h : validate_required_fields tc with
      | true =>
        rw [batch_format_records, if_pos h, format_ok_of_valid tc h,
          List.filter_cons_of_pos h, List.filterMap_cons]
        rw [format_ok_of_valid tc h]
        simpa [Except.toOption] using ih
      | false =>
        rw [batch_format_records, if_neg (by simp [h]),
          List.filter_cons_of_neg (by simp [h])]
        exact ih
  refine ⟨hmain, ?_⟩
  intro r1 r2 r3 h1 h3 h2
  have hv2 : validate_required_fields r2 = false := by
    rw [validate_required_fields, h2]
    simp
  refine ⟨_, _, format_ok_of_valid r1 h1, format_ok_of_valid r3 h3, ?_⟩
  rw [hmain]
  rw [List.filter_cons_of_pos h1, List.filter_cons_of_neg (by simp [hv2]),
    List.filter_cons_of_pos h3, List.filter_nil]
  rw [List.filterMap_cons, format_ok_of_valid r1 h1, List.filterMap_cons,
    format_ok_of_valid r3 h3]
  rfl

/-- Witness for C4: a concrete three-record batch with the second record
missing `expected_result` formats to exactly two records, in order. -/
theorem batch_format_records_spec_witness :
    ∃ o1 o3,
      format_test_case_for_lark
        ⟨some "TCG-1.1.1".toList, some "first".toList, some "High".toList,
          some "p".toList, some "s".toList, some "e".toList⟩ = .ok o1 ∧
      format_test_case_for_lark
        ⟨some "TCG-3.3.3".toList, some "third".toList, some "low".toList,
          some "p".toList, some "s".toList, some "e".toList⟩ = .ok o3 ∧
      batch_format_records
        [⟨some "TCG-1.1.1".toList, some "first".toList, some "High".toList,
            some "p".toList, some "s".toList, some "e".toList⟩,
         ⟨some "TCG-2.2.2".toList, some "second".toList, some "High".toList,
            some "p".toList, some "s".toList, none⟩,
         ⟨some "TCG-3.3.3".toList, some "third".toList, some "low".toList,
            some "p".toList, some "s".toList, some "e".toList⟩] = [o1, o3] :=
  batch_format_records_spec.2 _ _ _ (by decide) (by decide) rfl

/-! ## Claim C3 -/

/-- Claim C3: the extractor returns at most one record per case node, with
equality exactly when no case node has a blank (empty or whitespace-only, or
absent) title; blank-titled cases are dropped silently while the rest of the
extraction proceeds. -/
theorem extract_cases_length_spec :
    ∀ root : Elem,
      extract_test_cases root =
        (findAllCases root).filterMap extractSingleTestCase ∧
      (extract_test_cases root).length ≤ (findAllCases root).length ∧
      ((extract_test_cases root).length = (findAllCases root).length ↔
        ∀ e ∈ findAllCases root, getElementText e "title".toList [] ≠ []) := by
  intro root
  refine ⟨rfl, List.length_filterMap_le _ _, ?_⟩
  rw [extract_test_cases, length_filterMap_eq_iff]
  constructor
  · intro h e he
    have := h e he
    rw [extractSingleTestCase] at this
    intro hblank
    rw [if_pos hblank] at this
    simp at this
  · intro h e he
    rw [extractSingleTestCase, if_neg (h e he)]
    simp

/-- Witness for C3 at a concrete two-case document with one blank title. -/
theorem extract_cases_length_spec_witness :
    (extract_test_cases
      (Elem.mk "suite".toList none
        [Elem.mk "case".toList none
          [Elem.mk "title".toList (some "ok title".toList) []],
         Elem.mk "case".toList none
          [Elem.mk "title".toList (some "   ".toList) []]])).length = 1 ∧
    (findAllCases
      (Elem.mk "suite".toList none
        [Elem.mk "case".toList none
          [Elem.mk "title".toList (some "ok title".toList) []],
         Elem.mk "case".toList none
          [Elem.mk "title".toList (some "   ".toList) []]])).length = 2 ∧
    ¬((extract_test_cases
      (Elem.mk "suite".toList none
        [Elem.mk "case".toList none
          [Elem.mk "title".toList (some "ok title".toList) []],
         Elem.mk "case".toList none
          [Elem.mk "title".toList (some "   ".toList) []]])).length =
      (findAllCases
        (Elem.mk "suite".toList none
          [Elem.mk "case".toList none
            [Elem.mk "title".toList (some "ok title".toList) []],
           Elem.mk "case".toList none
            [Elem.mk "title".toList (some "   ".toList) []]])).length) := by
  have h := (extract_cases_length_spec
    (Elem.mk "suite".toList none
      [Elem.mk "case".toList none
        [Elem.mk "title".toList (some "ok title".toList) []],
       Elem.mk "case".toList none
        [Elem.mk "title".toList (some "   ".toList) []]])).2.2
  refine ⟨?_, ?_, ?_⟩
  · simp [extract_test_cases, findAllCases, descendantsAux, Elem.tag,
      extractSingleTestCase, getElementText, findDirect, Elem.children,
      Elem.text, pyStrip, pyIsSpace]
  · simp [findAllCases, descendantsAux, Elem.tag, Elem.children]
  · intro he
    have := h.mp he (Elem.mk "case".toList none
      [Elem.mk "title".toList (some "   ".toList) []])
      (by simp [findAllCases, descendantsAux, Elem.tag, Elem.children])
    exact this (by decide)

/-! ## Claim C6 -/

/-- The claim C6 is refuted by a document whose root has a `sections` child
but no case node anywhere: structural validation succeeds and parsing
returns zero cases. -/
theorem validate_structure_claim_ce :
    validate_xml_structure
      (Elem.mk "suite".toList none [Elem.mk "sections".toList none []]) = true ∧
    (findAllCases
      (Elem.mk "suite".toList none [Elem.mk "sections".toList none []])).length = 0 ∧
    (parse_xml_doc
      (Elem.mk "suite".toList none [Elem.mk "sections".toList none []])).isOk = true ∧
    (extract_test_cases
      (Elem.mk "suite".toList none [Elem.mk "sections".toList none []])).length = 0 := by
  have hval : validate_xml_structure
      (Elem.mk "suite".toList none [Elem.mk "sections".toList none []]) = true := by
    rw [validate_xml_structure]
    simp [findDirect, Elem.children, Elem.tag]
  refine ⟨hval, ?_, ?_, ?_⟩
  · simp [findAllCases, descendantsAux, Elem.tag, Elem.children]
  · rw [parse_xml_doc, if_pos hval]
    rfl
  · simp [extract_test_cases, findAllCases, descendantsAux, Elem.tag, Elem.children]

/-- Claim C6 (amended): for a document whose root has no direct `sections`
child, structural validation fails exactly when there is no case node
anywhere in the tree, and that failure makes parsing raise rather than
return an empty list; a document with a `sections` child always passes
structural validation, even with zero case nodes. -/
theorem validate_structure_spec :
    ∀ root : Elem,
      ((findDirect root "sections".toList).isSome = false →
        (validate_xml_structure root = false ↔ (findAllCases root).length = 0)) ∧
      ((findDirect root "sections".toList).isSome = true →
        validate_xml_structure root = true) ∧
      (validate_xml_structure root = false → (parse_xml_doc root).isOk = false) := by
  intro root
  refine ⟨?_, ?_, ?_⟩
  · intro hns
    rw [validate_xml_structure]
    cases hd : findDirect root "sections".toList with
    | some e => rw [hd] at hns; simp at hns
    | none =>
      simp [List.isEmpty_iff, List.length_eq_zero]
  · intro hs
    rw [validate_xml_structure]
    cases hd : findDirect root "sections".toList with
    | some e => rfl
    | none => rw [hd] at hs; simp at hs
  · intro hv
    rw [parse_xml_doc, if_neg (by simp [hv])]
    rfl

/-- Witness for C6 (amended) at a sections-free document with no cases and
at one with a case. -/
theorem validate_structure_spec_witness :
    (validate_xml_structure (Elem.mk "suite".toList none []) = false ↔
      (findAllCases (Elem.mk "suite".toList none [])).length = 0) ∧
    (parse_xml_doc (Elem.mk "suite".toList none [])).isOk = false :=
  ⟨(validate_structure_spec (Elem.mk "suite".toList none [])).1
     (by simp [findDirect, Elem.children]),
   (validate_structure_spec (Elem.mk "suite".toList none [])).2.2
     (by rw [validate_xml_structure]
         simp [findDirect, Elem.children, findAllCases, descendantsAux, Elem.tag])⟩

/-! ## Claim C9 -/

/-- The claim C9 is refuted when a forced refresh fails while an unexpired
token is cached: the fetch returns `None` but the old cached token is kept,
so `is_token_valid` remains true instead of the claimed no-token state. -/
theorem auth_token_claim_ce :
    get_tenant_access_token
      ⟨some "tok".toList, some 1000⟩ 0 true FetchResult.httpFail =
      (none, ⟨some "tok".toList, some 1000⟩, true) ∧
    is_token_valid ⟨some "tok".toList, some 1000⟩ 0 = true := by
  exact ⟨rfl, rfl⟩

/-- Claim C9 (amended): a successful exchange caches the token with expiry
300 seconds before the declared lifetime; an unexpired, truthy cached token
is returned without a new exchange when no refresh is forced; a failed
exchange returns `None` with no retry and leaves the cached fields
unchanged — so the manager is in the no-token state afterwards exactly when
it already was (in particular after an expiry-triggered refresh failure),
while a failed forced refresh keeps a still-valid cached token. -/
theorem auth_token_spec :
    ∀ (st : AuthState) (now : Int) (force : Bool) (net : FetchResult),
      (force = false → cachedUsable st now = true →
        get_tenant_access_token st now force net = (st.tenant_access_token, st, false)) ∧
      (∀ tok exp, (force = true ∨ cachedUsable st now = false) →
        net = FetchResult.ok tok exp →
        get_tenant_access_token st now force net =
          (some tok, ⟨some tok, some (now + (exp - 300))⟩, true)) ∧
      ((force = true ∨ cachedUsable st now = false) →
        (net = FetchResult.httpFail ∨ net = FetchResult.apiFail ∨ net = FetchResult.exn) →
        get_tenant_access_token st now force net = (none, st, true) ∧
        is_token_valid (get_tenant_access_token st now force net).2.1 now =
          is_token_valid st now) := by
  intro st now force net
  have hcond : ∀ (h : force = true ∨ cachedUsable st now = false),
      (!force && cachedUsable st now) = false := by
    intro h
    rcases h with h | h <;> simp [h]
  refine ⟨?_, ?_, ?_⟩
  · intro hf hc
    rw [get_tenant_access_token, if_pos (by simp [hf, hc])]
  · intro tok exp h hnet
    rw [get_tenant_access_token, if_neg (by simp [hcond h]), hnet]
    rfl
  · intro h hnet
    have heq : get_tenant_access_token st now force net = (none, st, true) := by
      rw [get_tenant_access_token, if_neg (by simp [hcond h])]
      rcases hnet with rfl | rfl | rfl <;> rfl
    rw [heq]
    exact ⟨rfl, rfl⟩

/-- Witness for C9 (amended): concrete runs of the three transitions. -/
theorem auth_token_spec_witness :
    get_tenant_access_token ⟨some "tok".toList, some 50⟩ 0 false FetchResult.httpFail =
      (some "tok".toList, ⟨some "tok".toList, some 50⟩, false) ∧
    get_tenant_access_token ⟨none, none⟩ 0 false (FetchResult.ok "t2".toList 7200) =
      (some "t2".toList, ⟨some "t2".toList, some 6900⟩, true) ∧
    get_tenant_access_token ⟨none, none⟩ 0 false FetchResult.apiFail =
      (none, ⟨none, none⟩, true) :=
  ⟨(auth_token_spec ⟨some "tok".toList, some 50⟩ 0 false FetchResult.httpFail).1
      rfl (by decide),
   by
    have h := (auth_token_spec ⟨none, none⟩ 0 false
      (FetchResult.ok "t2".toList 7200)).2.1 "t2".toList 7200
      (Or.inr (by decide)) rfl
    simpa using h,
   ((auth_token_spec ⟨none, none⟩ 0 false FetchResult.apiFail).2.2
      (Or.inr (by decide)) (Or.inr (Or.inl rfl))).1⟩

/-! ## Claim C2 -/

theorem chunksOf500_join {α : Type} : ∀ l : List α, (chunksOf500 l).flatten = l := by
  intro l
  induction l using chunksOf500.induct with
  | case1 => simp [chunksOf500]
  | case2 x xs ih =>
    rw [chunksOf500]
    simp only [List.flatten_cons, ih, List.cons_append]
    rw [List.take_append_drop]

theorem chunksOf500_chunk_bounds {α : Type} :
    ∀ (l : List α) (c : List α), c ∈ chunksOf500 l → c.length ≤ 500 ∧ c ≠ [] := by
  intro l
  induction l using chunksOf500.induct with
  | case1 => intro c hc; simp [chunksOf500] at hc
  | case2 x xs ih =>
    intro c hc
    rw [chunksOf500] at hc
    rcases List.mem_cons.mp hc with rfl | hc
    · constructor
      · simp only [List.length_cons, List.length_take]
        omega
      · simp
    · exact ih c hc

theorem chunksOf500_single {α : Type} (l : List α) (h1 : 1 ≤ l.length)
    (h2 : l.length ≤ 500) : chunksOf500 l = [l] := by
  cases l with
  | nil => simp at h1
  | cons x xs =>
    rw [chunksOf500]
    simp only [List.length_cons] at h2
    rw [List.take_of_length_le (by omega), List.drop_eq_nil_of_le (by omega)]
    simp [chunksOf500]

theorem chunksOf500_two {α : Type} (l : List α) (h1 : 501 ≤ l.length)
    (h2 : l.length ≤ 1000) : chunksOf500 l = [l.take 500, l.drop 500] := by
  cases l with
  | nil => simp at h1
  | cons x xs =>
    rw [chunksOf500]
    simp only [List.length_cons] at h1 h2
    rw [chunksOf500_single (xs.drop 499) (by simp; omega) (by simp; omega)]
    rw [List.take_succ_cons, List.drop_succ_cons]

theorem extractIds_cons_some (s : Str) (rs : List (Option Str)) :
    extractIds (some s :: rs) =
      if s.isEmpty then extractIds rs else s :: extractIds rs := by
  by_cases hs : s = [] <;>
    simp [extractIds, List.filterMap_cons, hs, List.isEmpty_iff]

theorem extractIds_map_some (ids : List Str) (h : ∀ s ∈ ids, s ≠ []) :
    extractIds (ids.map some) = ids := by
  induction ids with
  | nil => rfl
  | cons x xs ih =>
    rw [List.map_cons, extractIds_cons_some]
    have hx : x.isEmpty = false := by
      simpa [List.isEmpty_iff] using h x (by simp)
    rw [hx]
    simp only [Bool.false_eq_true, if_false]
    rw [ih (fun s hs => h s (by simp [hs]))]

theorem processChunks_shift {α : Type} (net : Nat → ChunkResp) :
    ∀ (l : List (List α)) (i : Nat),
      processChunks net (i + 1) l = processChunks (fun k => net (k + 1)) i l := by
  intro l
  induction l with
  | nil => intro i; rfl
  | cons c rest ih =>
    intro i
    rw [processChunks, processChunks, ih (i + 1)]

theorem processChunks_spec {α : Type} :
    ∀ (l : List (List α)) (net : Nat → ChunkResp),
      processChunks net 0 l =
        (((List.range l.length).map (fun k => (net k).okIds)).flatten,
         (List.range l.length).filterMap (fun k => (net k).errMsg),
         ((List.range l.length).filter (fun k => (net k).callsNetwork)).length) := by
  intro l
  induction l with
  | nil => intro net; rfl
  | cons c rest ih =>
    intro net
    rw [processChunks, show (0 : Nat) + 1 = 0 + 1 from rfl,
      processChunks_shift net rest 0, ih (fun k => net (k + 1))]
    simp only [List.length_cons, List.range_succ_eq_map, List.map_cons, List.map_map,
      List.flatten_cons, List.filterMap_cons, List.filter_cons, Function.comp,
      Nat.succ_eq_add_one]
    refine congrArg₂ _ ?_ (congrArg₂ _ ?_ ?_)
    · simp [Function.comp_def, Nat.succ_eq_add_one]
    · cases hm : (net 0).errMsg with
      | none => simp [Option.toList, Function.comp_def, Nat.succ_eq_add_one]
      | some msg => simp [Option.toList, Function.comp_def, Nat.succ_eq_add_one]
    · cases hc : (net 0).callsNetwork with
      | true =>
        simp [List.length_cons, Nat.add_comm, List.filter_map, Function.comp_def,
          Nat.succ_eq_add_one]
      | false =>
        simp [List.filter_map, Function.comp_def, Nat.succ_eq_add_one]

/-- Claim C2: batch creation splits records into at-most-500-element chunks
in order, performs one HTTP call per chunk (when a token is available),
continues past failed chunks, concatenates the ids of successful chunks in
chunk order, collects one error message per failed chunk, and succeeds
overall iff no error was collected; 600 records make exactly 2 calls, and a
failing second chunk yields `overallSuccess = false`, exactly the 500
first-chunk ids, and exactly 1 error. -/
theorem batch_create_records_spec :
    (∀ (α : Type) (records : List α),
      (chunksOf500 records).flatten = records ∧
      ∀ c ∈ chunksOf500 records, c.length ≤ 500 ∧ c ≠ []) ∧
    (∀ (α : Type) (net : Nat → ChunkResp) (records : List α),
      (batch_create_records net records).2.1 =
        ((List.range (chunksOf500 records).length).map (fun k => (net k).okIds)).flatten ∧
      (batch_create_records net records).2.2 =
        (List.range (chunksOf500 records).length).filterMap (fun k => (net k).errMsg) ∧
      ((batch_create_records net records).1 = true ↔
        (batch_create_records net records).2.2 = []) ∧
      ((∀ k < (chunksOf500 records).length, (net k).callsNetwork = true) →
        batchNetworkCalls net records = (chunksOf500 records).length)) ∧
    (∀ (α : Type) (records : List α) (ids500 : List Str) (net : Nat → ChunkResp)
        (m : Str),
      records.length = 600 → ids500.length = 500 → (∀ s ∈ ids500, s ≠ []) →
      net 0 = ChunkResp.ok (ids500.map some) → net 1 = ChunkResp.apiFail m →
      (batch_create_records net records).1 = false ∧
      (batch_create_records net records).2.1 = ids500 ∧
      (batch_create_records net records).2.2.length = 1 ∧
      batchNetworkCalls net records = 2) := by
  refine ⟨fun α records => ⟨chunksOf500_join records, chunksOf500_chunk_bounds records⟩,
    ?_, ?_⟩
  · intro α net records
    by_cases hrec : records.isEmpty
    · have : records = [] := List.isEmpty_iff.mp hrec
      subst this
      refine ⟨by simp [batch_create_records, chunksOf500],
        by simp [batch_create_records, chunksOf500],
        by simp [batch_create_records], ?_⟩
      intro h
      simp [batchNetworkCalls, chunksOf500]
    · rw [batch_create_records, if_neg (by simp [hrec]), batchNetworkCalls,
        if_neg (by simp [hrec]), processChunks_spec]
      refine ⟨rfl, rfl, by simp [List.isEmpty_iff], ?_⟩
      intro h
      have : (List.range (chunksOf500 records).length).filter
          (fun k => (net k).callsNetwork) =
          List.range (chunksOf500 records).length := by
        apply List.filter_eq_self.mpr
        intro k hk
        exact h k (List.mem_range.mp hk)
      rw [this, List.length_range]
  · intro α records ids500 net m h600 h500 hne hnet0 hnet1
    have hch : chunksOf500 records = [records.take 500, records.drop 500] :=
      chunksOf500_two records (by omega) (by omega)
    have hne' : ¬records.isEmpty := by
      cases records with
      | nil => simp at h600
      | cons x xs => simp
    rw [batch_create_records, if_neg (by simp_all), batchNetworkCalls,
      if_neg (by simp_all), hch]
    rw [processChunks, processChunks, processChunks]
    rw [hnet0]
    have h1 : net (0 + 1) = ChunkResp.apiFail m := hnet1
    rw [h1]
    simp only [ChunkResp.okIds, ChunkResp.errMsg, ChunkResp.callsNetwork,
      Option.toList, List.append_nil, List.nil_append, Bool.toNat_true]
    refine ⟨?_, ?_, ?_, ?_⟩
    · rfl
    · exact extractIds_map_some ids500 hne
    · rfl
    · trivial

/-- Witness for C2: 600 concrete records, a successful first chunk of 500
ids and a failing second chunk. -/
theorem batch_create_records_spec_witness :
    (batch_create_records
      (fun k => if k = 0 then ChunkResp.ok ((List.replicate 500 "x".toList).map some)
        else ChunkResp.apiFail "boom".toList)
      (List.replicate 600 (0 : Nat))).1 = false ∧
    (batch_create_records
      (fun k => if k = 0 then ChunkResp.ok ((List.replicate 500 "x".toList).map some)
        else ChunkResp.apiFail "boom".toList)
      (List.replicate 600 (0 : Nat))).2.1 = List.replicate 500 "x".toList ∧
    (batch_create_records
      (fun k => if k = 0 then ChunkResp.ok ((List.replicate 500 "x".toList).map some)
        else ChunkResp.apiFail "boom".toList)
      (List.replicate 600 (0 : Nat))).2.2.length = 1 ∧
    batchNetworkCalls
      (fun k => if k = 0 then ChunkResp.ok ((List.replicate 500 "x".toList).map some)
        else ChunkResp.apiFail "boom".toList)
      (List.replicate 600 (0 : Nat)) = 2 :=
  batch_create_records_spec.2.2 Nat (List.replicate 600 0)
    (List.replicate 500 "x".toList)
    (fun k => if k = 0 then ChunkResp.ok ((List.replicate 500 "x".toList).map some)
      else ChunkResp.apiFail "boom".toList)
    "boom".toList
    (by rw [List.length_replicate]) (by rw [List.length_replicate])
    (by intro s hs; rw [List.eq_of_mem_replicate hs]; decide)
    rfl rfl

/-! ## Claim C1 -/

theorem takeWhile_digits_append (g r : Str) (hg : ∀ c ∈ g, Char.isDigit c) :
    (g ++ '.' :: r).takeWhile Char.isDigit = g ∧
    (g ++ '.' :: r).dropWhile Char.isDigit = '.' :: r := by
  constructor
  · rw [List.takeWhile_append_of_pos hg, List.takeWhile_cons_of_neg (by decide)]
    simp
  · rw [List.dropWhile_append_of_pos hg, List.dropWhile_cons_of_neg (by decide)]

theorem takeWhile_digits_all (g : Str) (hg : ∀ c ∈ g, Char.isDigit c) :
    g.takeWhile Char.isDigit = g := by
  induction g with
  | nil => rfl
  | cons c cs ih =>
    rw [List.takeWhile_cons_of_pos (hg c (by simp))]
    rw [ih (fun x hx => hg x (by simp [hx]))]

theorem parseNums_complete (g1 g2 g3 : Str)
    (h1 : g1 ≠ []) (h2 : g2 ≠ []) (h3 : g3 ≠ [])
    (d1 : ∀ c ∈ g1, Char.isDigit c) (d2 : ∀ c ∈ g2, Char.isDigit c)
    (d3 : ∀ c ∈ g3, Char.isDigit c) :
    parseNums (g1 ++ '.' :: (g2 ++ '.' :: g3)) = some (g1, g2, g3) := by
  obtain ⟨ht1, hd1⟩ := takeWhile_digits_append g1 (g2 ++ '.' :: g3) d1
  obtain ⟨ht2, hd2⟩ := takeWhile_digits_append g2 g3 d2
  simp only [parseNums, ht1, hd1, ht2, hd2, takeWhile_digits_all g3 d3,
    if_neg h1, if_neg h2, if_neg h3]

theorem parseNums_sound (r g1 g2 g3 : Str)
    (h : parseNums r = some (g1, g2, g3)) :
    (g1 ≠ [] ∧ ∀ c ∈ g1, Char.isDigit c) ∧
    (g2 ≠ [] ∧ ∀ c ∈ g2, Char.isDigit c) ∧
    (g3 ≠ [] ∧ ∀ c ∈ g3, Char.isDigit c) := by
  rw [parseNums] at h
  split at h
  · exact absurd h (by simp)
  · split at h
    · split at h
      · exact absurd h (by simp)
      · split at h
        · split at h
          · exact absurd h (by simp)
          · injection h with h'
            injection h' with e1 h''
            injection h'' with e2 e3
            subst e1; subst e2; subst e3
            exact ⟨⟨by assumption, fun c hc => List.mem_takeWhile_imp hc⟩,
              ⟨by assumption, fun c hc => List.mem_takeWhile_imp hc⟩,
              ⟨by assumption, fun c hc => List.mem_takeWhile_imp hc⟩⟩
        · exact absurd h (by simp)
    · exact absurd h (by simp)

theorem fix_full_match_hyphen (g1 g2 g3 : Str)
    (h1 : g1 ≠ []) (h2 : g2 ≠ []) (h3 : g3 ≠ [])
    (d1 : ∀ c ∈ g1, Char.isDigit c) (d2 : ∀ c ∈ g2, Char.isDigit c)
    (d3 : ∀ c ∈ g3, Char.isDigit c) :
    fix_missing_hyphen ('T' :: 'C' :: 'G' :: (['-'] ++ (g1 ++ '.' :: (g2 ++ '.' :: g3)))) =
      "TCG-".toList ++ (g1 ++ '.' :: (g2 ++ '.' :: g3)) := by
  rw [fix_missing_hyphen, if_pos]
  · rfl
  constructor
  · show List.isPrefixOf ['T', 'C', 'G', '-'] _ = true
    simp [List.isPrefixOf, List.cons_append]
  · rw [show tryTCG ('T' :: 'C' :: 'G' :: (['-'] ++ (g1 ++ '.' :: (g2 ++ '.' :: g3)))) =
        match parseNums (g1 ++ '.' :: (g2 ++ '.' :: g3)) with
        | some (a, b, c) => some (['-'], a, b, c)
        | none => none from rfl]
    rw [parseNums_complete g1 g2 g3 h1 h2 h3 d1 d2 d3]
    rfl

theorem fix_full_match_nohyphen (g1 g2 g3 : Str)
    (h1 : g1 ≠ []) (h2 : g2 ≠ []) (h3 : g3 ≠ [])
    (d1 : ∀ c ∈ g1, Char.isDigit c) (d2 : ∀ c ∈ g2, Char.isDigit c)
    (d3 : ∀ c ∈ g3, Char.isDigit c) :
    fix_missing_hyphen ('T' :: 'C' :: 'G' :: ([] ++ (g1 ++ '.' :: (g2 ++ '.' :: g3)))) =
      "TCG-".toList ++ (g1 ++ '.' :: (g2 ++ '.' :: g3)) := by
  rw [fix_missing_hyphen, if_neg]
  · rw [show tryHyphenFix ('T' :: 'C' :: 'G' :: ([] ++ (g1 ++ '.' :: (g2 ++ '.' :: g3)))) =
        parseNums (g1 ++ '.' :: (g2 ++ '.' :: g3)) from rfl]
    rw [parseNums_complete g1 g2 g3 h1 h2 h3 d1 d2 d3]
  · intro hand
    have hpre := hand.1
    cases g1 with
    | nil => exact h1 rfl
    | cons c cs =>
      have hc : Char.isDigit c := d1 c (by simp)
      have hcne : ('-' == c) = false := by
        apply beq_eq_false_iff_ne.mpr
        intro he
        rw [← he] at hc
        exact absurd hc (by decide)
      have : List.isPrefixOf ['T', 'C', 'G', '-']
          ('T' :: 'C' :: 'G' :: ([] ++ ((c :: cs) ++ '.' :: (g2 ++ '.' :: g3)))) = true := hpre
      simp [List.isPrefixOf, List.cons_append, hcne] at this

theorem tryTCG_sound (s hyp g1 g2 g3 : Str) (h : tryTCG s = some (hyp, g1, g2, g3)) :
    (hyp = ['-'] ∨ hyp = []) ∧
    ((g1 ≠ [] ∧ ∀ c ∈ g1, Char.isDigit c) ∧
     (g2 ≠ [] ∧ ∀ c ∈ g2, Char.isDigit c) ∧
     (g3 ≠ [] ∧ ∀ c ∈ g3, Char.isDigit c)) := by
  rw [tryTCG.eq_def] at h
  split at h
  all_goals try split at h
  all_goals try split at h
  all_goals simp only [Option.some.injEq, Prod.mk.injEq, reduceCtorEq] at h
  all_goals obtain ⟨e0, e1, e2, e3⟩ := h
  all_goals (subst e0; subst e1; subst e2; subst e3)
  all_goals
    exact ⟨by first
      | exact Or.inl rfl
      | exact Or.inr rfl, parseNums_sound _ _ _ _ (by assumption)⟩

theorem searchTCG_canon :
    ∀ (s m g1 g2 g3 : Str), searchTCG s = some (m, g1, g2, g3) →
      fix_missing_hyphen m = "TCG-".toList ++ (g1 ++ '.' :: (g2 ++ '.' :: g3)) := by
  intro s
  induction s with
  | nil => intro m g1 g2 g3 h; cases h
  | cons c cs ih =>
    intro m g1 g2 g3 h
    rw [searchTCG] at h
    split at h
    · rename_i hyp a b c3 htry
      simp only [Option.some.injEq, Prod.mk.injEq] at h
      obtain ⟨e0, e1, e2, e3⟩ := h
      subst e0; subst e1; subst e2; subst e3
      obtain ⟨hhyp, ⟨n1, dd1⟩, ⟨n2, dd2⟩, ⟨n3, dd3⟩⟩ := tryTCG_sound _ _ _ _ _ htry
      rcases hhyp with rfl | rfl
      · exact fix_full_match_hyphen _ _ _ n1 n2 n3 dd1 dd2 dd3
      · exact fix_full_match_nohyphen _ _ _ n1 n2 n3 dd1 dd2 dd3
    · exact ih _ _ _ _ h

/-- The claim C1 is refuted at the no-match title `" a"`: the code returns
the stripped title `"a"` as remainder, not the title unchanged. -/
theorem extract_number_and_title_claim_ce :
    searchTCG " a".toList = none ∧
    extract_test_case_number_and_title " a".toList = ([], "a".toList) ∧
    (extract_test_case_number_and_title " a".toList).2 ≠ " a".toList := by
  exact ⟨by decide, by decide, by decide⟩

/-- Claim C1 (amended): `extract_test_case_number_and_title` first strips
the title; if the stripped title contains a `TCG-?\d+\.\d+\.\d+` match, the
number is the first match normalized to `TCG-g1.g2.g3` and the remainder is
the stripped title with the first occurrence of the matched substring
deleted and re-stripped; with no match the result is `("", stripped title)`
(so a whitespace-only title gives `("", "")`, and an already-stripped
no-match title is returned unchanged).  Scenario A holds. -/
theorem extract_number_and_title_spec :
    (∀ title : Str, searchTCG (pyStrip title) = none →
      extract_test_case_number_and_title title = ([], pyStrip title)) ∧
    (∀ title m g1 g2 g3 : Str,
      searchTCG (pyStrip title) = some (m, g1, g2, g3) →
      extract_test_case_number_and_title title =
        ("TCG-".toList ++ (g1 ++ '.' :: (g2 ++ '.' :: g3)),
          pyStrip (replaceFirst (pyStrip title) m))) ∧
    extract_test_case_number_and_title "TCG001.002.003 Login test".toList =
      ("TCG-001.002.003".toList, "Login test".toList) := by
  refine ⟨?_, ?_, by decide⟩
  · intro title h
    rw [extract_test_case_number_and_title]
    by_cases h0 : pyStrip title = []
    · rw [if_pos h0, h0]
    · rw [if_neg h0, h]
  · intro title m g1 g2 g3 h
    rw [extract_test_case_number_and_title]
    have h0 : pyStrip title ≠ [] := by
      intro he
      rw [he] at h
      cases h
    rw [if_neg h0, h]
    show (fix_missing_hyphen m, pyStrip (replaceFirst (pyStrip title) m)) = _
    rw [searchTCG_canon (pyStrip title) m g1 g2 g3 h]

/-- Witness for C1 (amended) at a concrete hyphen-less title. -/
theorem extract_number_and_title_spec_witness :
    extract_test_case_number_and_title " TCG1.2.3 hello".toList =
      ("TCG-".toList ++ ("1".toList ++ '.' :: ("2".toList ++ '.' :: "3".toList)),
        pyStrip (replaceFirst (pyStrip " TCG1.2.3 hello".toList) "TCG1.2.3".toList)) :=
  extract_number_and_title_spec.2.1 " TCG1.2.3 hello".toList "TCG1.2.3".toList
    "1".toList "2".toList "3".toList (by decide)

/-! ## Markup-cleaning lemmas (claims C5 and C8) -/

theorem takeWhile_add_dropWhile_length (p : Char → Bool) (cs : Str) :
    (cs.takeWhile p).length + (cs.dropWhile p).length = cs.length := by
  conv_rhs => rw [← List.takeWhile_append_dropWhile (p := p) (l := cs)]
  rw [List.length_append]

theorem pairSubF_length_le (d : Char) :
    ∀ (f : Nat) (s : Str), (pairSubF d f s).length ≤ s.length := by
  intro f
  induction f with
  | zero => intro s; exact le_rfl
  | succ f ih =>
    intro s
    cases s with
    | nil => exact le_rfl
    | cons c cs =>
      by_cases hcd : c = d
      · subst hcd
        by_cases hmr : cs.takeWhile (fun x => x ≠ c) ≠ [] ∧
            cs.dropWhile (fun x => x ≠ c) ≠ []
        · rw [pairSubF, if_pos rfl, if_pos hmr]
          have h1 := takeWhile_add_dropWhile_length (fun x => x ≠ c) cs
          have h2 : (cs.dropWhile (fun x => x ≠ c)).tail.length =
              (cs.dropWhile (fun x => x ≠ c)).length - 1 := List.length_tail _
          have h3 := ih (cs.dropWhile (fun x => x ≠ c)).tail
          simp only [List.length_append, List.length_cons]
          omega
        · rw [pairSubF, if_pos rfl, if_neg hmr]
          have := ih cs
          simp only [List.length_cons]
          omega
      · rw [pairSubF, if_neg hcd]
        have := ih cs
        simp only [List.length_cons]
        omega

theorem pairSubF_lt (d : Char) :
    ∀ (f : Nat) (s : Str), pairSubF d f s ≠ s → (pairSubF d f s).length < s.length := by
  intro f
  induction f with
  | zero => intro s h; exact absurd rfl h
  | succ f ih =>
    intro s h
    cases s with
    | nil => exact absurd rfl h
    | cons c cs =>
      by_cases hcd : c = d
      · subst hcd
        by_cases hmr : cs.takeWhile (fun x => x ≠ c) ≠ [] ∧
            cs.dropWhile (fun x => x ≠ c) ≠ []
        · rw [pairSubF, if_pos rfl, if_pos hmr]
          have h1 := takeWhile_add_dropWhile_length (fun x => x ≠ c) cs
          have h2 : (cs.dropWhile (fun x => x ≠ c)).tail.length =
              (cs.dropWhile (fun x => x ≠ c)).length - 1 := List.length_tail _
          have h3 := pairSubF_length_le c f (cs.dropWhile (fun x => x ≠ c)).tail
          have h6 : 1 ≤ (cs.dropWhile (fun x => x ≠ c)).length := by
            rcases hmr with ⟨-, h5⟩
            cases hd : cs.dropWhile (fun x => x ≠ c) with
            | nil => exact absurd hd h5
            | cons x xs => simp [hd]
          simp only [List.length_append, List.length_cons]
          omega
        · rw [pairSubF, if_pos rfl, if_neg hmr] at h ⊢
          have : pairSubF c f cs ≠ cs := fun he => h (by rw [he])
          have := ih cs this
          simp only [List.length_cons]
          omega
      · rw [pairSubF, if_neg hcd] at h ⊢
        have : pairSubF d f cs ≠ cs := fun he => h (by rw [he])
        have := ih cs this
        simp only [List.length_cons]
        omega

theorem boldSubF_length_le : ∀ (f : Nat) (s : Str), (boldSubF f s).length ≤ s.length := by
  intro f s
  induction f, s using boldSubF.induct with
  | case1 s => exact le_rfl
  | case2 n => exact le_rfl
  | case3 f cs hmr ih =>
    rw [boldSubF, if_pos hmr]
    have h1 := takeWhile_add_dropWhile_length (fun x => x ≠ '*') cs
    have h2 : ((cs.dropWhile (fun x => x ≠ '*')).drop 2).length =
        (cs.dropWhile (fun x => x ≠ '*')).length - 2 := List.length_drop _ _
    simp only [List.length_append, List.length_cons]
    omega
  | case4 f cs hmr ih =>
    rw [boldSubF, if_neg hmr]
    simp only [List.length_cons] at ih ⊢
    omega
  | case5 f c cs hc ih =>
    rw [boldSubF.eq_4 f c cs hc]
    simp only [List.length_cons]
    omega

theorem boldSubF_lt :
    ∀ (f : Nat) (s : Str), boldSubF f s ≠ s → (boldSubF f s).length < s.length := by
  intro f s
  induction f, s using boldSubF.induct with
  | case1 s => intro h; exact absurd rfl h
  | case2 n => intro h; exact absurd rfl h
  | case3 f cs hmr ih =>
    intro h
    rw [boldSubF, if_pos hmr]
    have h1 := takeWhile_add_dropWhile_length (fun x => x ≠ '*') cs
    have h2 : ((cs.dropWhile (fun x => x ≠ '*')).drop 2).length =
        (cs.dropWhile (fun x => x ≠ '*')).length - 2 := List.length_drop _ _
    have h3 := boldSubF_length_le f ((cs.dropWhile (fun x => x ≠ '*')).drop 2)
    have h4 : 2 ≤ (cs.dropWhile (fun x => x ≠ '*')).length := by
      rcases hmr with ⟨-, h5⟩
      have := congrArg List.length h5
      simp only [List.length_take, List.length_cons, List.length_nil] at this
      omega
    simp only [List.length_append, List.length_cons]
    omega
  | case4 f cs hmr ih =>
    intro h
    rw [boldSubF, if_neg hmr] at h ⊢
    have hne : boldSubF f ('*' :: cs) ≠ '*' :: cs := fun he => h (by rw [he])
    have := ih hne
    simp only [List.length_cons] at this ⊢
    omega
  | case5 f c cs hc ih =>
    intro h
    rw [boldSubF.eq_4 f c cs hc] at h ⊢
    have hne : boldSubF f cs ≠ cs := fun he => h (by rw [he])
    have := ih hne
    simp only [List.length_cons]
    omega

theorem biStep_length_le (s : Str) : (biStep s).length ≤ s.length :=
  le_trans (pairSubF_length_le '*' (boldSub s).length (boldSub s))
    (boldSubF_length_le s.length s)

theorem biStep_lt (s : Str) (h : biStep s ≠ s) : (biStep s).length < s.length := by
  by_cases hb : boldSub s = s
  · rw [biStep, hb] at h ⊢
    exact pairSubF_lt '*' s.length s h
  · have h1 := boldSubF_lt s.length s hb
    have h2 := pairSubF_length_le '*' (boldSub s).length (boldSub s)
    rw [biStep]
    calc (italicSub (boldSub s)).length ≤ (boldSub s).length := h2
    _ < s.length := h1

theorem biLoopF_fix : ∀ (f : Nat) (s : Str), s.length < f →
    biStep (biLoopF f s) = biLoopF f s := by
  intro f
  induction f with
  | zero => intro s h; omega
  | succ f ih =>
    intro s h
    rw [biLoopF]
    by_cases hs : biStep s = s
    · rw [if_pos hs]
      exact hs
    · rw [if_neg hs]
      exact ih (biStep s) (by have := biStep_lt s hs; omega)

theorem dropWhile_dropWhile (p : Char → Bool) (l : Str) :
    (l.dropWhile p).dropWhile p = l.dropWhile p := by
  induction l with
  | nil => rfl
  | cons c cs ih =>
    by_cases hc : p c
    · rw [List.dropWhile_cons_of_pos hc]
      exact ih
    · rw [List.dropWhile_cons_of_neg hc, List.dropWhile_cons_of_neg hc]

theorem pyStrip_decomp (s : Str) :
    s = s.takeWhile pyIsSpace ++
      (pyStrip s ++ ((s.dropWhile pyIsSpace).reverse.takeWhile pyIsSpace).reverse) ∧
    (∀ c ∈ s.takeWhile pyIsSpace, pyIsSpace c) ∧
    (∀ c ∈ ((s.dropWhile pyIsSpace).reverse.takeWhile pyIsSpace).reverse, pyIsSpace c) := by
  refine ⟨?_, fun c hc => List.mem_takeWhile_imp hc,
    fun c hc => List.mem_takeWhile_imp (List.mem_reverse.mp hc)⟩
  conv_lhs => rw [← List.takeWhile_append_dropWhile (p := pyIsSpace) (l := s)]
  congr 1
  have hsplit : (s.dropWhile pyIsSpace).reverse =
      (s.dropWhile pyIsSpace).reverse.takeWhile pyIsSpace ++
      (s.dropWhile pyIsSpace).reverse.dropWhile pyIsSpace :=
    (List.takeWhile_append_dropWhile _ _).symm
  calc s.dropWhile pyIsSpace
      = (s.dropWhile pyIsSpace).reverse.reverse := (List.reverse_reverse _).symm
    _ = ((s.dropWhile pyIsSpace).reverse.takeWhile pyIsSpace ++
        (s.dropWhile pyIsSpace).reverse.dropWhile pyIsSpace).reverse := by
        rw [← hsplit]
    _ = pyStrip s ++ ((s.dropWhile pyIsSpace).reverse.takeWhile pyIsSpace).reverse := by
        rw [List.reverse_append]
        rfl

theorem pyStrip_idem (s : Str) : pyStrip (pyStrip s) = pyStrip s := by
  have hXrev : (pyStrip s).reverse = (s.dropWhile pyIsSpace).reverse.dropWhile pyIsSpace := by
    rw [pyStrip, List.reverse_reverse]
  have hA : (pyStrip s).dropWhile pyIsSpace = pyStrip s := by
    cases hx : pyStrip s with
    | nil => rfl
    | cons x xs =>
      obtain ⟨-, -, -⟩ := pyStrip_decomp s
      have hd : s.dropWhile pyIsSpace = pyStrip s ++
          ((s.dropWhile pyIsSpace).reverse.takeWhile pyIsSpace).reverse := by
        have h := (pyStrip_decomp s).1
        conv_lhs at h =>
          rw [← List.takeWhile_append_dropWhile (p := pyIsSpace) (l := s)]
        exact List.append_cancel_left h
      have hne : s.dropWhile pyIsSpace ≠ [] := by
        rw [hd, hx]
        simp
      have hx0 : pyIsSpace x = false := by
        have hh := List.head?_dropWhile_not pyIsSpace s
        rw [hd, hx] at hh
        simpa using hh
      rw [List.dropWhile_cons_of_neg (by simp [hx0])]
  rw [show pyStrip (pyStrip s) =
      (((pyStrip s).dropWhile pyIsSpace).reverse.dropWhile pyIsSpace).reverse from rfl]
  rw [hA, hXrev, dropWhile_dropWhile, ← hXrev, List.reverse_reverse]

/-! ## Claim C8 -/

/-- Claim C8: `clean_markdown_content` applies the passes in order — link
replacement first, then fenced blocks, then inline code, then the
bold/italic loop run until a fixed point (its output is unchanged by one
more bold+italic pass), and the final result is whitespace-trimmed; the two
scenario strings clean as specified. -/
theorem clean_markdown_order_spec :
    (∀ x : Str, x ≠ [] →
      clean_markdown_content x = pyStrip (biLoop (codeSub (codeBlockSub (urlSub x))))) ∧
    (∀ x : Str, biStep (biLoop x) = biLoop x) ∧
    (∀ x : Str, pyStrip (clean_markdown_content x) = clean_markdown_content x) ∧
    clean_markdown_content "[Login page](http://x.com/login)".toList =
      "Login page".toList ∧
    clean_markdown_content "**Important**: run `npm install` then *check* result".toList =
      "Important: run npm install then check result".toList := by
  have h1 : ∀ x : Str, x ≠ [] →
      clean_markdown_content x = pyStrip (biLoop (codeSub (codeBlockSub (urlSub x)))) := by
    intro x hx
    rw [clean_markdown_content, if_neg hx, extract_url_description, if_neg hx]
  refine ⟨h1, fun x => biLoopF_fix (x.length + 1) x (by omega), ?_, by decide, by decide⟩
  intro x
  by_cases hx : x = []
  · subst hx
    rfl
  · rw [h1 x hx, pyStrip_idem]

/-- Witness for C8 at a concrete non-empty input. -/
theorem clean_markdown_order_spec_witness :
    clean_markdown_content "a".toList =
      pyStrip (biLoop (codeSub (codeBlockSub (urlSub "a".toList)))) :=
  clean_markdown_order_spec.1 "a".toList (by decide)

/-! ## Claim C5 -/

theorem pairSubF_nil (d : Char) : ∀ f : Nat, pairSubF d f [] = [] := by
  intro f
  cases f <;> rfl

theorem pairSubF_no_delim (d : Char) :
    ∀ (f : Nat) (s : Str), (∀ c ∈ s, c ≠ d) → pairSubF d f s = s := by
  intro f
  induction f with
  | zero => intro s hs; rfl
  | succ f ih =>
    intro s hs
    cases s with
    | nil => rfl
    | cons c cs =>
      have hc : c ≠ d := hs c (by simp)
      rw [pairSubF, if_neg hc, ih cs (fun x hx => hs x (by simp [hx]))]

theorem boldSubF_no_star :
    ∀ (f : Nat) (s : Str), (∀ c ∈ s, c ≠ '*') → boldSubF f s = s := by
  intro f
  induction f with
  | zero => intro s hs; rfl
  | succ f ih =>
    intro s hs
    cases s with
    | nil => rfl
    | cons c cs =>
      have hc : c ≠ '*' := hs c (by simp)
      rw [boldSubF.eq_4 f c cs (fun _ he _ => absurd he hc),
        ih cs (fun x hx => hs x (by simp [hx]))]

theorem pairSubF_fuel (d : Char) :
    ∀ (f g : Nat) (s : Str), s.length ≤ f → s.length ≤ g →
      pairSubF d f s = pairSubF d g s := by
  intro f
  induction f with
  | zero =>
    intro g s hf hg
    have : s = [] := List.length_eq_zero.mp (by omega)
    subst this
    rw [pairSubF_nil, pairSubF_nil]
  | succ f ih =>
    intro g s hf hg
    cases s with
    | nil => rw [pairSubF_nil, pairSubF_nil]
    | cons c cs =>
      cases g with
      | zero => simp at hg
      | succ g =>
        simp only [List.length_cons] at hf hg
        by_cases hcd : c = d
        · subst hcd
          by_cases hmr : cs.takeWhile (fun x => x ≠ c) ≠ [] ∧
              cs.dropWhile (fun x => x ≠ c) ≠ []
          · rw [pairSubF, if_pos rfl, if_pos hmr, pairSubF, if_pos rfl, if_pos hmr]
            congr 1
            have hlen : (cs.dropWhile (fun x => x ≠ c)).tail.length ≤ cs.length := by
              have h1 : (cs.dropWhile (fun x => x ≠ c)).length ≤ cs.length :=
                (List.dropWhile_sublist _).length_le
              have h2 := List.length_tail (cs.dropWhile (fun x => x ≠ c))
              omega
            exact ih g _ (by omega) (by omega)
          · rw [pairSubF, if_pos rfl, if_neg hmr, pairSubF, if_pos rfl, if_neg hmr]
            rw [ih g cs (by omega) (by omega)]
        · rw [pairSubF, if_neg hcd, pairSubF, if_neg hcd, ih g cs (by omega) (by omega)]

theorem boldSubF_fuel :
    ∀ (f g : Nat) (s : Str), s.length ≤ f → s.length ≤ g →
      boldSubF f s = boldSubF g s := by
  intro f
  induction f with
  | zero =>
    intro g s hf hg
    have : s = [] := List.length_eq_zero.mp (by omega)
    subst this
    cases g <;> rfl
  | succ f ih =>
    intro g s hf hg
    cases s with
    | nil => cases g <;> rfl
    | cons c cs =>
      cases g with
      | zero => simp at hg
      | succ g =>
        by_cases hstar : ∃ cs2, c = '*' ∧ cs = '*' :: cs2
        · obtain ⟨cs2, rfl, rfl⟩ := hstar
          simp only [List.length_cons] at hf hg
          by_cases hmr : cs2.takeWhile (fun x => x ≠ '*') ≠ [] ∧
              (cs2.dropWhile (fun x => x ≠ '*')).take 2 = ['*', '*']
          · rw [boldSubF, if_pos hmr, boldSubF, if_pos hmr]
            congr 1
            have h1 : (cs2.dropWhile (fun x => x ≠ '*')).length ≤ cs2.length :=
              (List.dropWhile_sublist _).length_le
            have h2 := List.length_drop 2 (cs2.dropWhile (fun x => x ≠ '*'))
            exact ih g _ (by omega) (by omega)
          · rw [boldSubF, if_neg hmr, boldSubF, if_neg hmr]
            congr 1
            exact ih g ('*' :: cs2) (by simp; omega) (by simp; omega)
        · have hc : ∀ cs_1, c = '*' → cs = '*' :: cs_1 → False := by
            intro cs1 he1 he2
            exact hstar ⟨cs1, he1, he2⟩
          simp only [List.length_cons] at hf hg
          rw [boldSubF.eq_4 f c cs hc, boldSubF.eq_4 g c cs hc,
            ih g cs (by omega) (by omega)]

theorem pairSubF_append_left (d : Char) (l : Str) (hl : ∀ c ∈ l, c ≠ d) :
    ∀ (f : Nat) (t : Str), pairSubF d (l.length + f) (l ++ t) = l ++ pairSubF d f t := by
  induction l with
  | nil => intro f t; simp
  | cons c l2 ih =>
    intro f t
    have hc : c ≠ d := hl c (by simp)
    rw [List.cons_append,
      show (c :: l2).length + f = (l2.length + f) + 1 by simp; omega,
      pairSubF, if_neg hc, ih (fun x hx => hl x (by simp [hx])) f t, List.cons_append]

theorem boldSubF_append_left (l : Str) (hl : ∀ c ∈ l, c ≠ '*') :
    ∀ (f : Nat) (t : Str), boldSubF (l.length + f) (l ++ t) = l ++ boldSubF f t := by
  induction l with
  | nil => intro f t; simp
  | cons c l2 ih =>
    intro f t
    have hc : c ≠ '*' := hl c (by simp)
    rw [List.cons_append,
      show (c :: l2).length + f = (l2.length + f) + 1 by simp; omega,
      boldSubF.eq_4 _ c _ (fun _ he _ => absurd he hc),
      ih (fun x hx => hl x (by simp [hx])) f t, List.cons_append]

theorem pairSubF_append_right (d : Char) (w : Str) (hw : ∀ c ∈ w, c ≠ d) :
    ∀ (f : Nat) (t : Str), t.length + w.length ≤ f →
      pairSubF d f (t ++ w) = pairSubF d f t ++ w := by
  intro f
  induction f with
  | zero =>
    intro t hf
    obtain ⟨ht, hw0⟩ : t = [] ∧ w = [] :=
      ⟨List.length_eq_zero.mp (by omega), List.length_eq_zero.mp (by omega)⟩
    subst ht; subst hw0
    rfl
  | succ f ih =>
    intro t hf
    cases t with
    | nil =>
      rw [List.nil_append, pairSubF_no_delim d _ w hw, pairSubF_nil, List.nil_append]
    | cons c cs =>
      simp only [List.length_cons] at hf
      by_cases hcd : c = d
      · subst hcd
        by_cases hdw : cs.dropWhile (fun x => x ≠ c) = []
        · have hallcs : ∀ x ∈ cs, decide (x ≠ c) = true :=
            List.dropWhile_eq_nil_iff.mp hdw
          have hdw2 : (cs ++ w).dropWhile (fun x => x ≠ c) = [] := by
            apply List.dropWhile_eq_nil_iff.mpr
            intro x hx
            rcases List.mem_append.mp hx with h | h
            · exact hallcs x h
            · simpa using hw x h
          rw [List.cons_append, pairSubF, if_pos rfl, if_neg (fun hand => hand.2 hdw2),
            pairSubF, if_pos rfl, if_neg (fun hand => hand.2 hdw), List.cons_append]
          rw [ih cs (by omega)]
        · have hlen := takeWhile_add_dropWhile_length (fun x => x ≠ c) cs
          have hdwlen : 1 ≤ (cs.dropWhile (fun x => x ≠ c)).length := by
            cases hcase : cs.dropWhile (fun x => x ≠ c) with
            | nil => exact absurd hcase hdw
            | cons y ys => simp
          have h1 : (cs ++ w).takeWhile (fun x => x ≠ c) =
              cs.takeWhile (fun x => x ≠ c) := by
            rw [List.takeWhile_append, if_neg (by omega)]
          have h2 : (cs ++ w).dropWhile (fun x => x ≠ c) =
              cs.dropWhile (fun x => x ≠ c) ++ w := by
            rw [List.dropWhile_append, if_neg (by simpa [List.isEmpty_iff] using hdw)]
          by_cases hrun : cs.takeWhile (fun x => x ≠ c) = []
          · rw [List.cons_append, pairSubF, if_pos rfl,
              if_neg (fun hand => hand.1 (by rw [h1, hrun])),
              pairSubF, if_pos rfl, if_neg (fun hand => hand.1 hrun), List.cons_append]
            rw [ih cs (by omega)]
          · rw [List.cons_append, pairSubF, if_pos rfl,
              if_pos ⟨by rw [h1]; exact hrun,
                by rw [h2]; exact fun hemp => hdw (List.append_eq_nil.mp hemp).1⟩,
              pairSubF, if_pos rfl, if_pos ⟨hrun, hdw⟩, h1, h2, List.append_assoc]
            congr 1
            obtain ⟨x, xs, hxe⟩ : ∃ x xs, cs.dropWhile (fun y => y ≠ c) = x :: xs := by
              cases hcase : cs.dropWhile (fun y => y ≠ c) with
              | nil => exact absurd hcase hdw
              | cons y ys => exact ⟨y, ys, rfl⟩
            rw [hxe, List.cons_append]
            show pairSubF c f (xs ++ w) = pairSubF c f xs ++ w
            have hxslen : xs.length + 1 ≤ cs.length := by
              have := congrArg List.length hxe
              have h3 : (cs.dropWhile (fun y => y ≠ c)).length ≤ cs.length :=
                (List.dropWhile_sublist _).length_le
              simp only [List.length_cons] at this
              omega
            exact ih xs (by omega)
      · rw [List.cons_append, pairSubF, if_neg hcd, pairSubF, if_neg hcd,
          List.cons_append, ih cs (by omega)]

theorem boldSubF_append_right (w : Str) (hw : ∀ c ∈ w, c ≠ '*') :
    ∀ (f : Nat) (t : Str), t.length + w.length ≤ f →
      boldSubF f (t ++ w) = boldSubF f t ++ w := by
  intro f
  induction f with
  | zero =>
    intro t hf
    obtain ⟨ht, hw0⟩ : t = [] ∧ w = [] :=
      ⟨List.length_eq_zero.mp (by omega), List.length_eq_zero.mp (by omega)⟩
    subst ht; subst hw0
    rfl
  | succ f ih =>
    intro t hf
    cases t with
    | nil =>
      rw [List.nil_append, boldSubF_no_star _ w hw,
        show boldSubF (f + 1) [] = [] from rfl, List.nil_append]
    | cons c cs =>
      by_cases hstar : ∃ cs2, c = '*' ∧ cs = '*' :: cs2
      · obtain ⟨cs2, rfl, rfl⟩ := hstar
        simp only [List.length_cons] at hf
        have hcons : ('*' :: '*' :: cs2) ++ w = '*' :: '*' :: (cs2 ++ w) := by simp
        by_cases hdw : cs2.dropWhile (fun x => x ≠ '*') = []
        · have hallcs : ∀ x ∈ cs2, decide (x ≠ '*') = true :=
            List.dropWhile_eq_nil_iff.mp hdw
          have hdw2 : (cs2 ++ w).dropWhile (fun x => x ≠ '*') = [] := by
            apply List.dropWhile_eq_nil_iff.mpr
            intro x hx
            rcases List.mem_append.mp hx with h | h
            · exact hallcs x h
            · simpa using hw x h
          rw [hcons, boldSubF, if_neg (fun hand => by rw [hdw2] at hand; simp at hand),
            boldSubF, if_neg (fun hand => by rw [hdw] at hand; simp at hand)]
          rw [show ('*' :: (cs2 ++ w)) = ('*' :: cs2) ++ w by simp,
            ih ('*' :: cs2) (by simp; omega)]
          simp
        · have hlen := takeWhile_add_dropWhile_length (fun x => x ≠ '*') cs2
          have hdwlen : 1 ≤ (cs2.dropWhile (fun x => x ≠ '*')).length := by
            cases hcase : cs2.dropWhile (fun x => x ≠ '*') with
            | nil => exact absurd hcase hdw
            | cons y ys => simp
          have h1 : (cs2 ++ w).takeWhile (fun x => x ≠ '*') =
              cs2.takeWhile (fun x => x ≠ '*') := by
            rw [List.takeWhile_append, if_neg (by omega)]
          have h2 : (cs2 ++ w).dropWhile (fun x => x ≠ '*') =
              cs2.dropWhile (fun x => x ≠ '*') ++ w := by
            rw [List.dropWhile_append, if_neg (by simpa [List.isEmpty_iff] using hdw)]
          obtain ⟨x, xs, hxe⟩ : ∃ x xs, cs2.dropWhile (fun y => y ≠ '*') = x :: xs := by
            cases hcase : cs2.dropWhile (fun y => y ≠ '*') with
            | nil => exact absurd hcase hdw
            | cons y ys => exact ⟨y, ys, rfl⟩
          cases xs with
          | nil =>
            have hc2 : ((cs2 ++ w).dropWhile (fun y => y ≠ '*')).take 2 ≠ ['*', '*'] := by
              rw [h2, hxe]
              cases w with
              | nil => simp
              | cons w0 ws =>
                have hw0 : w0 ≠ '*' := hw w0 (by simp)
                simp [List.take, hw0]
            have hc1 : (cs2.dropWhile (fun y => y ≠ '*')).take 2 ≠ ['*', '*'] := by
              rw [hxe]
              simp
            rw [hcons, boldSubF, if_neg (fun hand => hc2 hand.2),
              boldSubF, if_neg (fun hand => hc1 hand.2)]
            rw [show ('*' :: (cs2 ++ w)) = ('*' :: cs2) ++ w by simp,
              ih ('*' :: cs2) (by simp; omega)]
            simp
          | cons y ys =>
            have ht2 : ((cs2 ++ w).dropWhile (fun z => z ≠ '*')).take 2 =
                (cs2.dropWhile (fun z => z ≠ '*')).take 2 := by
              rw [h2, hxe]
              simp [List.take]
            by_cases hcond : cs2.takeWhile (fun z => z ≠ '*') ≠ [] ∧
                (cs2.dropWhile (fun z => z ≠ '*')).take 2 = ['*', '*']
            · rw [hcons, boldSubF, if_pos ⟨by rw [h1]; exact hcond.1, by rw [ht2]; exact hcond.2⟩,
                boldSubF, if_pos hcond, h1, h2, hxe, List.append_assoc]
              congr 1
              rw [show ((x :: y :: ys) ++ w) = x :: y :: (ys ++ w) by simp]
              rw [show (x :: y :: (ys ++ w)).drop 2 = ys ++ w from rfl,
                show (x :: y :: ys).drop 2 = ys from rfl]
              have hyslen : ys.length + 2 ≤ cs2.length := by
                have := congrArg List.length hxe
                simp only [List.length_cons] at this
                omega
              exact ih ys (by omega)
            · rw [hcons, boldSubF,
                if_neg (fun hand => hcond ⟨by rw [← h1]; exact hand.1,
                  by rw [← ht2]; exact hand.2⟩),
                boldSubF, if_neg hcond]
              rw [show ('*' :: (cs2 ++ w)) = ('*' :: cs2) ++ w by simp,
                ih ('*' :: cs2) (by simp; omega)]
              simp
      · have hc : ∀ cs_1, c = '*' → cs = '*' :: cs_1 → False := by
          intro cs1 he1 he2
          exact hstar ⟨cs1, he1, he2⟩
        have hc' : ∀ cs_1, c = '*' → cs ++ w = '*' :: cs_1 → False := by
          intro cs1 he1 he2
          cases cs with
          | nil =>
            rw [List.nil_append] at he2
            have : '*' ∈ w := by rw [he2]; simp
            exact hw '*' this rfl
          | cons c2 cs2 =>
            rw [List.cons_append] at he2
            injection he2 with he2a he2b
            exact hstar ⟨cs2, he1, by rw [he2a]⟩
        simp only [List.length_cons] at hf
        rw [List.cons_append, boldSubF.eq_4 f c (cs ++ w) hc', boldSubF.eq_4 f c cs hc,
          List.cons_append, ih cs (by omega)]

theorem italicSub_sandwich (l mid tr : Str) (hl : ∀ c ∈ l, c ≠ '*')
    (htr : ∀ c ∈ tr, c ≠ '*') :
    italicSub (l ++ (mid ++ tr)) = l ++ (italicSub mid ++ tr) := by
  rw [show italicSub (l ++ (mid ++ tr)) =
      pairSubF '*' (l ++ (mid ++ tr)).length (l ++ (mid ++ tr)) from rfl]
  rw [show (l ++ (mid ++ tr)).length = l.length + (mid.length + tr.length) by
    simp [List.length_append]]
  rw [pairSubF_append_left '*' l hl (mid.length + tr.length) (mid ++ tr)]
  rw [pairSubF_append_right '*' tr htr (mid.length + tr.length) mid le_rfl]
  rw [pairSubF_fuel '*' (mid.length + tr.length) mid.length mid (by omega) le_rfl]
  rfl

theorem boldSub_sandwich (l mid tr : Str) (hl : ∀ c ∈ l, c ≠ '*')
    (htr : ∀ c ∈ tr, c ≠ '*') :
    boldSub (l ++ (mid ++ tr)) = l ++ (boldSub mid ++ tr) := by
  rw [show boldSub (l ++ (mid ++ tr)) =
      boldSubF (l ++ (mid ++ tr)).length (l ++ (mid ++ tr)) from rfl]
  rw [show (l ++ (mid ++ tr)).length = l.length + (mid.length + tr.length) by
    simp [List.length_append]]
  rw [boldSubF_append_left l hl (mid.length + tr.length) (mid ++ tr)]
  rw [boldSubF_append_right tr htr (mid.length + tr.length) mid le_rfl]
  rw [boldSubF_fuel (mid.length + tr.length) mid.length mid (by omega) le_rfl]
  rfl

theorem biStep_sandwich (l mid tr : Str) (hl : ∀ c ∈ l, c ≠ '*')
    (htr : ∀ c ∈ tr, c ≠ '*') :
    biStep (l ++ (mid ++ tr)) = l ++ (biStep mid ++ tr) := by
  rw [biStep, boldSub_sandwich l mid tr hl htr,
    italicSub_sandwich l (boldSub mid) tr hl htr]
  rfl

/-- The claim C5 (unconditional idempotence of `clean_markdown_content`) is
refuted at `"[a]*(*b)"`: the italic pass creates a new link pattern, so the
first cleaning returns `"[a](b)"` and a second cleaning shortens it to
`"a"`. -/
theorem clean_markdown_idempotent_ce :
    clean_markdown_content "[a]*(*b)".toList = "[a](b)".toList ∧
    clean_markdown_content (clean_markdown_content "[a]*(*b)".toList) = "a".toList ∧
    clean_markdown_content (clean_markdown_content "[a]*(*b)".toList) ≠
      clean_markdown_content "[a]*(*b)".toList := by
  exact ⟨by decide, by decide, by decide⟩

/-- Claim C5 (amended): `clean_markdown_content` is idempotent on every
input whose cleaned output is left unchanged by the link, code-block and
inline-code passes (the bold/italic loop already ends at a fixed point and
stripping is idempotent); in general a second application can differ, since
the star-stripping passes can create new link or code patterns. -/
theorem clean_markdown_idempotent_cond :
    ∀ x : Str,
      urlSub (clean_markdown_content x) = clean_markdown_content x →
      codeBlockSub (clean_markdown_content x) = clean_markdown_content x →
      codeSub (clean_markdown_content x) = clean_markdown_content x →
      clean_markdown_content (clean_markdown_content x) = clean_markdown_content x := by
  intro x hu hb hc
  by_cases hy : clean_markdown_content x = []
  · rw [hy]
    rfl
  · set y := clean_markdown_content x with hydef
    rw [clean_markdown_content, if_neg hy, extract_url_description, if_neg hy, hu, hb, hc]
    have hx : x ≠ [] := by
      intro he
      rw [hydef, he] at hy
      exact hy rfl
    have hyz : y = pyStrip (biLoop (codeSub (codeBlockSub (urlSub x)))) := by
      rw [hydef, clean_markdown_content, if_neg hx, extract_url_description, if_neg hx]
    set b := biLoop (codeSub (codeBlockSub (urlSub x))) with hbdef
    have hfix : biStep b = b := biLoopF_fix _ _ (Nat.lt_succ_self _)
    obtain ⟨hdecomp, hlead, htrail⟩ := pyStrip_decomp b
    have hlead' : ∀ c ∈ b.takeWhile pyIsSpace, c ≠ '*' := by
      intro c hcm he
      have := hlead c hcm
      rw [he] at this
      exact absurd this (by decide)
    have htrail' : ∀ c ∈ ((b.dropWhile pyIsSpace).reverse.takeWhile pyIsSpace).reverse,
        c ≠ '*' := by
      intro c hcm he
      have := htrail c hcm
      rw [he] at this
      exact absurd this (by decide)
    have hmid : biStep (pyStrip b) = pyStrip b := by
      have h := hfix
      conv_lhs at h => rw [hdecomp]
      rw [biStep_sandwich _ (pyStrip b) _ hlead' htrail'] at h
      conv_rhs at h => rw [hdecomp]
      exact List.append_cancel_right (List.append_cancel_left h)
    have hbl : biLoop (pyStrip b) = pyStrip b := by
      rw [biLoop, biLoopF, if_pos hmid]
    rw [hyz, hbl, pyStrip_idem]

/-- Witness for C5 (amended) at a concrete input whose cleaned output has
no residual link or code pattern. -/
theorem clean_markdown_idempotent_cond_witness :
    clean_markdown_content (clean_markdown_content "**Important**: run *now*".toList) =
      clean_markdown_content "**Important**: run *now*".toList :=
  clean_markdown_idempotent_cond "**Important**: run *now*".toList
    (by decide) (by decide) (by decide)
